import Mathlib

/-!
Verification of the semantic-release-requests plugin against its
natural-language specification.

The development shallowly embeds the TypeScript sources:

* `src/lib/models/config.ts` — the configuration data model;
* `src/lib/error.ts` — configuration error construction;
* `src/lib/verify-config.ts` — `ensureDefault` and `verifyConfig`;
* `src/lib/requests.ts` — `processRequest`, `getBranches`, `createRequests`;
* the git helper module (`ls`, `checkout`, `fetch`, `add`, `commit`, `push`)
  and the lifecycle hooks (`verifyConditions`, `prepare`, `success`).

External collaborators that the spec explicitly excludes from deeper
specification (shelling out to git, HTTP calls to the platform REST APIs,
lodash template interpolation, JS regex matching, URL parsing and the
authentication remote rewriting) are modelled as opaque inputs: each external
call's outcome is a parameter of the run, and each call performed is recorded
as an event in an explicit trace.  JavaScript's dynamically typed
configuration values are modelled by the `JValue` type, with JS truthiness
and nullish coalescing embedded explicitly.
-/

namespace SRQ

/-- A JavaScript runtime value, as far as the plugin's configuration code
inspects one: `undefined`, `null`, booleans, numbers, strings, arrays and
plain objects. -/
inductive JValue where
| vUndefined
| vNull
| vBool (b : Bool)
| vNum (n : Int)
| vStr (s : String)
| vArr (xs : List JValue)
| vObj (fields : List (String × JValue))
deriving Repr

/-- JS truthiness: `undefined`, `null`, `false`, `0` and `""` are falsy. -/
def jTruthy : JValue → Bool
| .vUndefined => false
| .vNull => false
| .vBool b => b
| .vNum n => n != 0
| .vStr s => s != ""
| .vArr _ => true
| .vObj _ => true

/-- JS nullish coalescing `a ?? b`: `b` only when `a` is `undefined`/`null`. -/
def jCoalesce (a b : JValue) : JValue :=
  match a with
  | .vUndefined => b
  | .vNull => b
  | x => x

/-- Whether a value is nullish (`null` or `undefined`): JS member access
throws a `TypeError` exactly on these. -/
def isNullish : JValue → Bool
| .vNull => true
| .vUndefined => true
| _ => false

/-- JS property access `v[k]` as the source performs it: a `TypeError` on
`null`/`undefined`, the field (or `undefined`) on an object, `undefined` on
every other primitive (the plugin only reads `from`/`to` off candidate
entries). -/
def jGetE (v : JValue) (k : String) : Except String JValue :=
  match v with
  | .vNull => .error "TypeError"
  | .vUndefined => .error "TypeError"
  | .vObj fs =>
    .ok (match fs.find? (fun p => p.1 == k) with
      | some p => p.2
      | none => .vUndefined)
  | _ => .ok .vUndefined

/-- Property access restricted to non-nullish values, on which JS access
cannot throw.  Used only in crash-free characterizations and in the typed
post-validation reading; the embedding of the source's access is
`jGetE`. -/
def jGetD (v : JValue) (k : String) : JValue :=
  match v with
  | .vObj fs =>
    match fs.find? (fun p => p.1 == k) with
    | some p => p.2
    | none => .vUndefined
  | _ => .vUndefined

/-- lodash `isString`. -/
def isStringJ : JValue → Bool
| .vStr _ => true
| _ => false

/-- lodash `isBoolean`. -/
def isBooleanJ : JValue → Bool
| .vBool _ => true
| _ => false

/-- lodash `isArray`. -/
def isArrayJ : JValue → Bool
| .vArr _ => true
| _ => false

/-- Embeds `stringNotEmpty` of verify-config.ts: `value !== ""` (a strict
inequality, so any non-string value passes). -/
def stringNotEmptyJ : JValue → Bool
| .vStr s => s != ""
| _ => true

/-- Embeds `validStringArray` of verify-config.ts: every element is a non-empty
string (`filter(...).length === array.length`).  It is only ever invoked
behind `isArray`, so the non-array case is unreachable. -/
def validStringArrayJ : JValue → Bool
| .vArr xs => xs.all (fun s => isStringJ s && stringNotEmptyJ s)
| _ => false

/-- One entry's check inside `validCandidatesArray`:
`typeof target.from === "string" && stringNotEmpty(target.from)` and the
same for `to`, with `&&` short-circuit.  The member accesses `target.from`
and `target.to` throw a `TypeError` on a nullish entry. -/
def validCandidateE (t : JValue) : Except String Bool := do
  let f ← jGetE t "from"
  if isStringJ f && stringNotEmptyJ f then do
    let t2 ← jGetE t "to"
    pure (isStringJ t2 && stringNotEmptyJ t2)
  else
    pure false

/-- The filter of `validCandidatesArray` visits every entry in order
(`Array.prototype.filter` does not short-circuit), so the first nullish
entry throws and otherwise the check is the conjunction over all
entries (`filter(...).length === candidates.length`). -/
def validCandidatesArrayE : List JValue → Except String Bool
| [] => pure true
| t :: ts => do
  let b ← validCandidateE t
  let rest ← validCandidatesArrayE ts
  pure (b && rest)

/-- Embeds `validCandidatesArray` of verify-config.ts.  It only ever runs
behind `isArray`; calling `.filter` on a non-array would itself throw. -/
def validCandidatesArrayV (v : JValue) : Except String Bool :=
  match v with
  | .vArr xs => validCandidatesArrayE xs
  | _ => .error "TypeError"

/-- A crash-free characterization of one candidate entry's check: on a
non-nullish entry it agrees with `validCandidateE` (see
`validCandidateE_ok`). -/
def candidateShapeOK (t : JValue) : Bool :=
  isStringJ (jGetD t "from") && stringNotEmptyJ (jGetD t "from")
    && isStringJ (jGetD t "to") && stringNotEmptyJ (jGetD t "to")

/-- A crash-free characterization of `validCandidatesArray`: agrees with
the embedding on arrays without nullish entries. -/
def candidatesShapeOK : JValue → Bool
| .vArr xs => xs.all candidateShapeOK
| _ => false

/-- The non-`NULL` values of the `Platform` enum of models/config.ts. -/
def platformValues : List String :=
  ["bitbucket", "bitbucket-cloud", "gitea", "github", "gitlab"]

/-- Embeds `validPlatform` of verify-config.ts: the value strictly equals the
string form of one of the non-`NULL` platforms (a non-string value never
strictly equals a string). -/
def validPlatformJ (v : JValue) : Bool :=
  match v with
  | .vStr s => platformValues.contains s
  | _ => false

/-- Embeds `defaultTitle` of models/config.ts (lodash-interpolated downstream). -/
def defaultTitle : String := "Release candidate branch $\x7b from \x7d"

/-- Embeds `defaultCommit` of models/config.ts (lodash-interpolated downstream). -/
def defaultCommit : String :=
  "chore(release): release changes for v$\x7b nextRelease.version \x7d [skip ci]"

/-- The runtime value of a `RequestsConfig` object: one `JValue` per field
of the interface of models/config.ts.  `vUndefined` fields model a
`Partial<RequestsConfig>` entry that is absent. -/
structure DynConfig where
  apiPathPrefix : JValue
  assets : JValue
  baseUrl : JValue
  candidates : JValue
  commit : JValue
  debug : JValue
  dryRun : JValue
  platform : JValue
  repositoryUrl : JValue
  title : JValue
  token : JValue
deriving Repr

/-- The configuration field names (the keys of `RequestsConfig`). -/
inductive Fld where
| apiPathPrefix | assets | baseUrl | candidates | commit
| debug | dryRun | platform | repositoryUrl | title | token
deriving Repr, DecidableEq

/-- The JS key of a field. -/
def fldKey : Fld → String
| .apiPathPrefix => "apiPathPrefix"
| .assets => "assets"
| .baseUrl => "baseUrl"
| .candidates => "candidates"
| .commit => "commit"
| .debug => "debug"
| .dryRun => "dryRun"
| .platform => "platform"
| .repositoryUrl => "repositoryUrl"
| .title => "title"
| .token => "token"

/-- Project a field out of a configuration object. -/
def getField (c : DynConfig) : Fld → JValue
| .apiPathPrefix => c.apiPathPrefix
| .assets => c.assets
| .baseUrl => c.baseUrl
| .candidates => c.candidates
| .commit => c.commit
| .debug => c.debug
| .dryRun => c.dryRun
| .platform => c.platform
| .repositoryUrl => c.repositoryUrl
| .title => c.title
| .token => c.token

/-- Lift a pure check into the validator result type. -/
def liftV (p : JValue → Bool) : JValue → Except String Bool :=
  fun v => .ok (p v)

/-- The `validators` table of `verifyConfig` (verify-config.ts).  Only the
second candidates validator can throw; every other check is pure. -/
def fldValidatorsE : Fld → List (JValue → Except String Bool)
| .apiPathPrefix => [liftV isStringJ]
| .assets => [liftV isArrayJ, liftV validStringArrayJ]
| .baseUrl => [liftV isStringJ, liftV stringNotEmptyJ]
| .candidates => [liftV isArrayJ, validCandidatesArrayV]
| .commit => [liftV isStringJ, liftV stringNotEmptyJ]
| .debug => [liftV isBooleanJ]
| .dryRun => [liftV isBooleanJ]
| .platform => [liftV isStringJ, liftV validPlatformJ]
| .repositoryUrl => [liftV isStringJ, liftV stringNotEmptyJ]
| .title => [liftV isStringJ, liftV stringNotEmptyJ]
| .token => [liftV isStringJ, liftV stringNotEmptyJ]

/-- The inner `for` loop of `verifyConfig`: run the validators in order,
stop with `false` at the first rejection, and let a thrown `TypeError`
escape. -/
def runValidators : List (JValue → Except String Bool) → JValue → Except String Bool
| [], _ => pure true
| vd :: vds, v => do
  let b ← vd v
  if b then runValidators vds v else pure false

/-- The crash-free characterization of the validator table: the same
checks with the throwing candidates check replaced by its shape test. -/
def fldValidators : Fld → List (JValue → Bool)
| .apiPathPrefix => [isStringJ]
| .assets => [isArrayJ, validStringArrayJ]
| .baseUrl => [isStringJ, stringNotEmptyJ]
| .candidates => [isArrayJ, candidatesShapeOK]
| .commit => [isStringJ, stringNotEmptyJ]
| .debug => [isBooleanJ]
| .dryRun => [isBooleanJ]
| .platform => [isStringJ, validPlatformJ]
| .repositoryUrl => [isStringJ, stringNotEmptyJ]
| .title => [isStringJ, stringNotEmptyJ]
| .token => [isStringJ, stringNotEmptyJ]

/-- A field passes when every characterization check accepts its value. -/
def fieldOK (c : DynConfig) (f : Fld) : Bool :=
  (fldValidators f).all (fun vd => vd (getField c f))

/-- Whether the candidates field, when it is an array, holds no nullish
entry — the configurations on which `verifyConfig` cannot crash. -/
def candNoNullishB (c : DynConfig) : Bool :=
  match c.candidates with
  | .vArr xs => xs.all (fun t => !isNullish t)
  | _ => true

/-- A `SemanticReleaseError`: its message and code.  The `details` string
(documentation link plus `JSON.stringify` of the offending value) is
presentation built by excluded collaborators and is not modelled. -/
structure SRError where
  message : String
  code : String
deriving Repr, DecidableEq

/-- The documented message of each configuration error (error.ts). -/
def configMessage : Fld → String
| .apiPathPrefix => "Invalid 'apiPathPrefix' configuration."
| .assets => "Invalid 'assets' configuration."
| .baseUrl => "Invalid 'baseUrl' configuration."
| .candidates => "Invalid 'candidates' configuration."
| .commit => "Invalid 'commit' configuration."
| .debug => "Invalid 'debug' configuration (coming from semantic-release options)."
| .dryRun => "Invalid 'dryRun' configuration (coming from semantic-release options)."
| .platform => "Invalid 'platform' configuration."
| .repositoryUrl => "Invalid 'repositoryUrl' configuration (coming from semantic-release options)."
| .title => "Invalid 'title' configuration."
| .token => "Invalid 'token' configuration."

/-- Embeds `getConfigError` of error.ts: code `EINVALID` + upper-cased key, with
the documented message. -/
def getConfigErrorE (f : Fld) : SRError :=
  ⟨configMessage f, "EINVALID" ++ (fldKey f).toUpper⟩

/-- The key order of the configuration object built by `ensureDefault`
(`Object.entries` iterates it in insertion order). -/
def fldOrder : List Fld :=
  [.apiPathPrefix, .assets, .baseUrl, .candidates, .commit, .debug,
   .dryRun, .platform, .repositoryUrl, .title, .token]

/-- The `reduce` of `verifyConfig`: walk the fields in object order and
collect, for each field whose first failing validator exists, that field's
configuration error; a `TypeError` thrown by a validator aborts the whole
reduction. -/
def verifyConfigErrorsE (c : DynConfig) : Except String (List SRError) :=
  fldOrder.foldlM
    (fun agg f => do
      let ok ← runValidators (fldValidatorsE f) (getField c f)
      pure (if ok then agg else agg ++ [getConfigErrorE f]))
    []

/-- The crash-free characterization of the collected errors: what the
reduction produces whenever no validator throws (see
`verifyConfigErrorsE_eq`). -/
def verifyConfigErrors (c : DynConfig) : List SRError :=
  fldOrder.foldl
    (fun agg f => if fieldOK c f then agg else agg ++ [getConfigErrorE f]) []

/-- An error raised by a run: a plain (execa/HTTP) error, one
`SemanticReleaseError`, or an `AggregateError` of several. -/
inductive RunError where
| raw (message : String)
| single (e : SRError)
| aggregate (es : List SRError)
deriving Repr, DecidableEq

/-- Embeds `verifyConfig` of verify-config.ts: throw the aggregate of the
collected errors when there is at least one; a `TypeError` raised while
validating (nullish candidates entry) escapes uncaught. -/
def verifyConfig (c : DynConfig) : Except RunError Unit :=
  match verifyConfigErrorsE c with
  | .error e => .error (.raw e)
  | .ok [] => .ok ()
  | .ok errs => .error (.aggregate errs)

/-- The process environment: each variable is either unset or holds a
string (possibly the empty one). -/
abbrev EnvT : Type := String → Option String

/-- Truthiness of an optional environment lookup (`if (env?.X)`): defined
and non-empty. -/
def optTruthy : Option String → Bool
| some s => s != ""
| none => false

/-- Embeds `env?.GH_URL ?? env?.GITHUB_URL ?? env?.GITHUB_API_URL` of
`ensureDefault`: nullish coalescing keeps the first defined value, even an
empty string. -/
def githubUrlOf (env : EnvT) : Option String :=
  (env "GH_URL").orElse (fun _ => (env "GITHUB_URL").orElse (fun _ => env "GITHUB_API_URL"))

/-- Embeds `env?.GL_URL ?? env?.GITLAB_URL ?? env?.CI_SERVER_URL` of
`ensureDefault`. -/
def gitlabUrlOf (env : EnvT) : Option String :=
  (env "GL_URL").orElse (fun _ => (env "GITLAB_URL").orElse (fun _ => env "CI_SERVER_URL"))

/-- The `getURLs` closure of `ensureDefault` (verify-config.ts): resolve
(platform, baseUrl, apiPathPrefix).  The platform is the string value of
the `Platform` enum member (`""` for `Platform.NULL`). -/
def getURLs (cfg : DynConfig) (env : EnvT) : String × JValue × JValue :=
  if jTruthy cfg.baseUrl then
    ("", cfg.baseUrl, jCoalesce cfg.apiPathPrefix (.vStr ""))
  else if optTruthy (env "BITBUCKET_URL") then
    ("bitbucket", .vStr ((env "BITBUCKET_URL").getD ""),
      jCoalesce cfg.apiPathPrefix (.vStr "/rest/api/1.0"))
  else if optTruthy (env "BITBUCKET_CLOUD_URL") then
    ("bitbucket-cloud", .vStr ((env "BITBUCKET_CLOUD_URL").getD ""),
      jCoalesce cfg.apiPathPrefix (.vStr "/2.0"))
  else if optTruthy (env "GITEA_URL") then
    ("gitea", .vStr ((env "GITEA_URL").getD ""),
      jCoalesce cfg.apiPathPrefix (.vStr "/api/v1"))
  else if optTruthy (githubUrlOf env) then
    ("github", .vStr ((githubUrlOf env).getD ""),
      jCoalesce cfg.apiPathPrefix (.vStr ""))
  else if optTruthy (gitlabUrlOf env) then
    ("gitlab", .vStr ((gitlabUrlOf env).getD ""),
      jCoalesce cfg.apiPathPrefix (.vStr "/api/v4"))
  else
    ("", .vStr "", .vStr "")

/-- The token resolution of `ensureDefault`:
`env?.BB_TOKEN ?? env?.BITBUCKET_TOKEN ?? env?.GITEA_TOKEN ?? env?.GH_TOKEN
?? env?.GITHUB_TOKEN ?? env?.GL_TOKEN ?? env?.GITLAB_TOKEN ?? ""`. -/
def tokenOf (env : EnvT) : String :=
  ((env "BB_TOKEN").orElse (fun _ =>
    (env "BITBUCKET_TOKEN").orElse (fun _ =>
      (env "GITEA_TOKEN").orElse (fun _ =>
        (env "GH_TOKEN").orElse (fun _ =>
          (env "GITHUB_TOKEN").orElse (fun _ =>
            (env "GL_TOKEN").orElse (fun _ =>
              env "GITLAB_TOKEN"))))))).getD ""

/-- Embeds `ensureDefault` of verify-config.ts: value every field with the input
value or its default. -/
def ensureDefault (cfg : DynConfig) (env : EnvT) : DynConfig :=
  let t := getURLs cfg env
  { apiPathPrefix := t.2.2
    assets := jCoalesce cfg.assets (.vArr [])
    baseUrl := t.2.1
    candidates := jCoalesce cfg.candidates (.vArr [])
    commit := jCoalesce cfg.commit (.vStr defaultCommit)
    debug := jCoalesce cfg.debug (.vBool false)
    dryRun := jCoalesce cfg.dryRun (.vBool false)
    platform := jCoalesce cfg.platform (.vStr t.1)
    repositoryUrl := jCoalesce cfg.repositoryUrl (.vStr "")
    title := jCoalesce cfg.title (.vStr defaultTitle)
    token := .vStr (tokenOf env) }

/-- A `ReleaseCandidate` of models/config.ts.  `from` is a Lean keyword, so
the fields are `fromPat`/`toPat`. -/
structure ReleaseCandidate where
  fromPat : String
  toPat : String
deriving Repr, DecidableEq

/-- A `RequestsConfig` at the declared TypeScript types, as the request
orchestration consumes it after validation. -/
structure RequestsConfig where
  debug : Bool
  dryRun : Bool
  repositoryUrl : String
  apiPathPrefix : String
  baseUrl : String
  platform : String
  token : String
  candidates : List ReleaseCandidate
  title : String
  commit : String
  assets : List String
deriving Repr, DecidableEq

/-- Extract the string content of a runtime value (the TS types guarantee a
string once validation has passed). -/
def jStr : JValue → String
| .vStr s => s
| _ => ""

/-- Extract a boolean likewise. -/
def jBool : JValue → Bool
| .vBool b => b
| _ => false

/-- Read a validated runtime configuration back at its declared TypeScript
types (what the static types of verify-config.ts assert about the value
handed on to requests.ts). -/
def asTyped (c : DynConfig) : RequestsConfig :=
  { debug := jBool c.debug
    dryRun := jBool c.dryRun
    repositoryUrl := jStr c.repositoryUrl
    apiPathPrefix := jStr c.apiPathPrefix
    baseUrl := jStr c.baseUrl
    platform := jStr c.platform
    token := jStr c.token
    candidates :=
      match c.candidates with
      | .vArr xs => xs.map (fun t => ⟨jStr (jGetD t "from"), jStr (jGetD t "to")⟩)
      | _ => []
    title := jStr c.title
    commit := jStr c.commit
    assets :=
      match c.assets with
      | .vArr xs => xs.map jStr
      | _ => [] }

/-- The part of the semantic-release context the request orchestration
reads: the released branch, the next release's version and its notes. -/
structure Ctx where
  branchName : String
  version : String
  notes : Option String
deriving Repr, DecidableEq

/-- One external call performed by a run.  `logEv`/`logErrEv` record
`logger.log`/`logger.error` invocations (their message text is interpolated
by excluded collaborators and not modelled). -/
inductive Event where
| checkoutEv (branch : String)
| addEv (assets : List String)
| commitEv (message : String)
| pushEv (args : List String)
| fetchEv (remote : String)
| lsEv (remote : String)
| createPREv (source target : String)
| logEv
| logErrEv
deriving Repr, DecidableEq

/-- The argv built by `push` of the git module:
`["push", remote, "HEAD:" + branch]`, plus `--dry-run` when asked. -/
def pushArgs (remote branch : String) (dryRun : Bool) : List String :=
  ["push", remote, "HEAD:" ++ branch] ++ (if dryRun then ["--dry-run"] else [])

/-- The asset branch name of `processRequest`:
`release/${releaseBranch}/${version}`. -/
def changesBranchOf (ctx : Ctx) : String :=
  "release/" ++ ctx.branchName ++ "/" ++ ctx.version

/-- The `SemanticReleaseError` thrown by `processRequest` when the asset
branch cannot be produced. -/
def pushAssetsError (changesBranch : String) : SRError :=
  ⟨"Failed to add release assets to " ++ changesBranch
      ++ " branch. Not proceeded with release.",
    "EPUSHASSETS"⟩

/-- The `SemanticReleaseError` collected by `createRequests` for one failed
pull request. -/
def prCreateError (src tgt : String) : SRError :=
  ⟨"Failed to create pull request from '" ++ src ++ "' to '" ++ tgt ++ "'.",
    "EPULLREQUEST"⟩

/-- The outcome of each external call `processRequest` makes.  `authRemote`
stands for `authModificator(parse(repositoryUrl), platform, token)`, whose
code lives outside this repository's sources. -/
structure GitExt where
  authRemote : String
  checkoutNew : Except String Unit
  addRes : Except String Unit
  commitRes : Except String Unit
  pushRes : Except String Unit
  checkoutBack : Except String Unit
  createPRRes : Except String Unit
deriving Repr

/-- Embeds `processRequest` of requests.ts: commit the release assets on a new
branch, push it, and open one pull request back to the released branch.
Every external call performed is recorded; a git failure aborts with
`EPUSHASSETS`, a pull-request failure is logged and swallowed. -/
def processRequest (ctx : Ctx) (cfg : RequestsConfig) (ext : GitExt) :
    Except RunError Unit × List Event :=
  if cfg.assets = [] then (.ok (), [])
  else
    let rb := ctx.branchName
    let cb := changesBranchOf ctx
    let err : Except RunError Unit := .error (.single (pushAssetsError cb))
    let t1 := [Event.checkoutEv cb]
    match ext.checkoutNew with
    | .error _ => (err, t1)
    | .ok _ =>
      let t2 := t1 ++ [Event.addEv cfg.assets]
      match ext.addRes with
      | .error _ => (err, t2)
      | .ok _ =>
        let t3 := t2 ++ [Event.commitEv cfg.commit]
        match ext.commitRes with
        | .error _ => (err, t3)
        | .ok _ =>
          let t4 := t3 ++ (if cfg.dryRun then [Event.logEv] else [])
            ++ [Event.pushEv (pushArgs ext.authRemote cb cfg.dryRun)]
          match ext.pushRes with
          | .error _ => (err, t4)
          | .ok _ =>
            let t5 := t4 ++ [Event.checkoutEv rb]
            match ext.checkoutBack with
            | .error _ => (err, t5)
            | .ok _ =>
              let t6 := t5 ++ [Event.createPREv cb rb]
              match ext.createPRRes with
              | .error _ => (.ok (), t6 ++ [Event.logErrEv])
              | .ok _ => (.ok (), t6)

/-- The outcome of the external calls `getBranches` makes. -/
structure BranchExt where
  fetchRes : Except String Unit
  lsRes : Except String (List String)
deriving Repr

/-- Embeds `getBranches` of requests.ts.  `rm s pat` stands for the truthiness of
JS `s.match(pat)` (the regex engine is an excluded collaborator).  The
`find` over the `to` patterns returns the matching pattern itself, whose JS
truthiness requires it to be non-empty. -/
def getBranches (rm : String → String → Bool) (ctx : Ctx)
    (cfg : RequestsConfig) (ext : BranchExt) :
    Except RunError (List String) × List Event :=
  let rb := ctx.branchName
  let appropriates := cfg.candidates.filter (fun c => rm rb c.fromPat)
  if appropriates = [] then (.ok [], [Event.logEv])
  else
    let t1 := [Event.logEv, Event.fetchEv cfg.repositoryUrl]
    match ext.fetchRes with
    | .error e => (.error (.raw e), t1)
    | .ok _ =>
      let t2 := t1 ++ [Event.lsEv cfg.repositoryUrl]
      match ext.lsRes with
      | .error e => (.error (.raw e), t2)
      | .ok remote =>
        let branches := (remote.filter (fun b => rb != b)).filter (fun b =>
          match (appropriates.map (fun c => c.toPat)).find? (fun t => rm b t) with
          | some t => t != ""
          | none => false)
        (.ok branches, t2 ++ [Event.logEv])

/-- The `for` loop of `createRequests`: per branch, skip with a log line in
dry-run mode, otherwise attempt the pull request and collect a
`EPULLREQUEST` error on failure.  `prRes` gives the outcome of `createPR`
for each target branch. -/
def createRequestsLoop (rb : String) (dryRun : Bool)
    (prRes : String → Except String Unit) :
    List String → List SRError × List Event
| [] => ([], [])
| b :: bs =>
  if dryRun then
    let r := createRequestsLoop rb dryRun prRes bs
    (r.1, Event.logEv :: r.2)
  else
    let r := createRequestsLoop rb dryRun prRes bs
    match prRes b with
    | .ok _ => (r.1, Event.createPREv rb b :: r.2)
    | .error _ => (prCreateError rb b :: r.1, Event.createPREv rb b :: r.2)

/-- Embeds `createRequests` of requests.ts: one pull request per input branch, then
an `AggregateError` of the collected failures when there is at least one. -/
def createRequests (ctx : Ctx) (cfg : RequestsConfig) (branches : List String)
    (prRes : String → Except String Unit) :
    Except RunError Unit × List Event :=
  let r := createRequestsLoop ctx.branchName cfg.dryRun prRes branches
  if r.1 = [] then (.ok (), r.2) else (.error (.aggregate r.1), r.2)

/-- Embeds `verifyConditions` of the plugin entry point: `ensureDefault` then
`verifyConfig`, returning the validated configuration. -/
def verifyConditions (g : DynConfig) (env : EnvT) : Except RunError DynConfig :=
  let c := ensureDefault g env
  match verifyConfig c with
  | .ok _ => .ok c
  | .error e => .error e

/-- The `prepare` lifecycle hook: validate, then start `processRequest`.
The source does not await the `processRequest` call, so its events happen
but a rejection of it never surfaces through `prepare`'s own promise (it
becomes an unhandled rejection); only a `verifyConditions` throw does. -/
def prepare (g : DynConfig) (env : EnvT) (ctx : Ctx) (gext : GitExt) :
    Except RunError Unit × List Event :=
  match verifyConditions g env with
  | .error e => (.error e, [])
  | .ok c => (.ok (), (processRequest ctx (asTyped c) gext).2)

/-- The error `success` wraps a non-semantic-release error into. -/
def rcError : SRError :=
  ⟨"Failed to create release candidates pull requests.", "ERCPULLREQUESTS"⟩

/-- The `success` lifecycle hook: validate, list the candidate branches,
create their pull requests; its catch rethrows `AggregateError`s and
`SemanticReleaseError`s and wraps anything else into `ERCPULLREQUESTS`. -/
def success (g : DynConfig) (env : EnvT) (ctx : Ctx)
    (rm : String → String → Bool) (bext : BranchExt)
    (prRes : String → Except String Unit) :
    Except RunError Unit × List Event :=
  match verifyConditions g env with
  | .error e => (.error e, [])
  | .ok c =>
    let tc := asTyped c
    match getBranches rm ctx tc bext with
    | (.error (.raw _), t) => (.error (.single rcError), t)
    | (.error e, t) => (.error e, t)
    | (.ok branches, t) =>
      let r := createRequests ctx tc branches prRes
      match r.1 with
      | .error (.raw _) => (.error (.single rcError), t ++ r.2)
      | x => (x, t ++ r.2)

/-- Whether an external call's outcome is a success. -/
def exOkB : Except String Unit → Bool
| .ok _ => true
| .error _ => false

/-- How many pull-request creation calls a trace holds. -/
def countPR (t : List Event) : Nat :=
  (t.filter (fun e => match e with | .createPREv _ _ => true | _ => false)).length

/- Shared concrete fixtures for witnesses and counterexamples. -/

/-- A context on branch `main` releasing version `1.2.3`. -/
def ctx0 : Ctx := ⟨"main", "1.2.3", none⟩

/-- A fully successful external world for `processRequest`. -/
def extOK : GitExt := ⟨"authremote", .ok (), .ok (), .ok (), .ok (), .ok (), .ok ()⟩

/-- A dry-run configuration with one release asset. -/
def cfgDry : RequestsConfig :=
  ⟨false, true, "git@github.com:o/r.git", "", "https://api.github.com", "github",
    "tok", [], defaultTitle, defaultCommit, ["CHANGELOG.md"]⟩

/-- The same configuration with the dry-run flag off. -/
def cfgPlain : RequestsConfig :=
  ⟨false, false, "git@github.com:o/r.git", "", "https://api.github.com", "github",
    "tok", [], defaultTitle, defaultCommit, ["CHANGELOG.md"]⟩

/-- A configuration whose entire field set is absent. -/
def dynUndef : DynConfig :=
  ⟨.vUndefined, .vUndefined, .vUndefined, .vUndefined, .vUndefined, .vUndefined, .vUndefined, .vUndefined,
    .vUndefined, .vUndefined, .vUndefined⟩

/-- An empty environment. -/
def envNone : EnvT := fun _ => none

/-! ## C9 — empty asset list makes `processRequest` a no-op -/

/-- C9: for every context and every configuration whose assets list is
empty, `processRequest` returns immediately: it succeeds with an empty
trace, so no git operation and no pull-request creation is performed,
whatever the other configuration fields and the external world. -/
theorem processRequest_emptyAssets_noop (ctx : Ctx) (cfg : RequestsConfig)
    (ext : GitExt) (h : cfg.assets = []) :
    processRequest ctx cfg ext = (.ok (), []) := by
  simp [processRequest, h]

/-- A configuration with an empty assets list. -/
def cfgNoAssets : RequestsConfig :=
  ⟨false, false, "git@github.com:o/r.git", "", "https://api.github.com", "github",
    "tok", [⟨"main", "dev"⟩], defaultTitle, defaultCommit, []⟩

/-- Witness for C9 at a concrete configuration. -/
theorem processRequest_emptyAssets_noop_w :
    cfgNoAssets.assets = [] ∧ processRequest ctx0 cfgNoAssets extOK = (.ok (), []) :=
  ⟨rfl, processRequest_emptyAssets_noop ctx0 cfgNoAssets extOK rfl⟩

/-! ## C10 — no matching candidate: `getBranches` stops before fetch/ls -/

/-- C10: when no candidate's `from` pattern matches the release branch,
`getBranches` returns the empty list and its trace holds a single log line:
neither `fetch` nor `ls` is invoked. -/
theorem getBranches_noCandidate (rm : String → String → Bool) (ctx : Ctx)
    (cfg : RequestsConfig) (ext : BranchExt)
    (h : cfg.candidates.filter (fun c => rm ctx.branchName c.fromPat) = []) :
    getBranches rm ctx cfg ext = (.ok [], [Event.logEv]) := by
  simp [getBranches, h]

/-- A literal-equality matcher: agrees with JS `String.prototype.match` on
the concrete literal patterns the fixtures use. -/
def rmLit (s pat : String) : Bool := pat == s

/-- A configuration whose only candidate pair is `staging -> develop`. -/
def cfgStaging : RequestsConfig :=
  ⟨false, false, "git@github.com:o/r.git", "", "https://api.github.com", "github",
    "tok", [⟨"staging", "develop"⟩], defaultTitle, defaultCommit, []⟩

/-- Witness for C10: on branch `main` no candidate matches, so the run
stops after one log line. -/
theorem getBranches_noCandidate_w :
    cfgStaging.candidates.filter (fun c => rmLit ctx0.branchName c.fromPat) = []
      ∧ getBranches rmLit ctx0 cfgStaging ⟨.ok (), .ok ["develop"]⟩
          = (.ok [], [Event.logEv]) :=
  ⟨rfl, getBranches_noCandidate rmLit ctx0 cfgStaging ⟨.ok (), .ok ["develop"]⟩ rfl⟩

/-! ## Agreement of the validation run with its crash-free
characterization on configurations without nullish candidate entries -/

/-- On a non-nullish value, JS property access cannot throw. -/
lemma jGetE_ok (v : JValue) (k : String) (h : isNullish v = false) :
    jGetE v k = .ok (jGetD v k) := by
  cases v <;> first | rfl | simp [isNullish] at h

/-- On a non-nullish entry the candidate check cannot throw and computes
its shape test. -/
lemma validCandidateE_ok (t : JValue) (h : isNullish t = false) :
    validCandidateE t = .ok (candidateShapeOK t) := by
  have hred : validCandidateE t
      = (if isStringJ (jGetD t "from") && stringNotEmptyJ (jGetD t "from")
          then Except.ok (isStringJ (jGetD t "to") && stringNotEmptyJ (jGetD t "to"))
          else Except.ok false) := by
    unfold validCandidateE
    rw [jGetE_ok t "from" h, jGetE_ok t "to" h]
    rfl
  rw [hred]
  cases ha : isStringJ (jGetD t "from") <;>
    cases hb : stringNotEmptyJ (jGetD t "from") <;>
      simp [candidateShapeOK, ha, hb]

/-- Over entries none of which is nullish, the candidates check computes
the conjunction of the shape tests. -/
lemma validCandidatesArrayE_ok (xs : List JValue)
    (h : ∀ t ∈ xs, isNullish t = false) :
    validCandidatesArrayE xs = .ok (xs.all candidateShapeOK) := by
  induction xs with
  | nil => rfl
  | cons t ts ih =>
    have ht := h t (List.mem_cons_self t ts)
    have hres := ih (fun u hu => h u (List.mem_cons_of_mem t hu))
    simp only [validCandidatesArrayE, validCandidateE_ok t ht, hres, List.all_cons]
    rfl

/-- A single lifted validator runs without throwing. -/
lemma runValidators_lift1 (p : JValue → Bool) (v : JValue) :
    runValidators [liftV p] v = .ok (p v) := by
  cases hp : p v <;> simp only [runValidators, liftV, hp] <;> rfl

/-- Two lifted validators run without throwing, with short-circuit. -/
lemma runValidators_lift2 (p q : JValue → Bool) (v : JValue) :
    runValidators [liftV p, liftV q] v = .ok (p v && q v) := by
  cases hp : p v <;> cases hq : q v <;>
    simp only [runValidators, liftV, hp, hq, Bool.and_self, Bool.and_true,
      Bool.and_false, Bool.true_and, Bool.false_and] <;> rfl

/-- With no nullish candidates entry, every field's validator chain runs
without throwing and computes the field's characterization. -/
lemma fieldOKE_eq (c : DynConfig) (f : Fld) (hnn : candNoNullishB c = true) :
    runValidators (fldValidatorsE f) (getField c f) = .ok (fieldOK c f) := by
  cases f
  case candidates =>
    cases hc : c.candidates
    case vArr xs =>
      have hxs : ∀ t ∈ xs, isNullish t = false := by
        simp only [candNoNullishB, hc, List.all_eq_true, Bool.not_eq_true'] at hnn
        exact hnn
      cases hall : xs.all candidateShapeOK <;>
        simp [fldValidatorsE, runValidators, liftV, getField, hc, isArrayJ,
          validCandidatesArrayV, validCandidatesArrayE_ok xs hxs, hall,
          fieldOK, fldValidators, candidatesShapeOK] <;> rfl
    all_goals
      simp [fldValidatorsE, runValidators, liftV, getField, hc, isArrayJ,
        validCandidatesArrayV, fieldOK, fldValidators, candidatesShapeOK]
    all_goals rfl
  all_goals
    simp [fldValidatorsE, fieldOK, fldValidators, getField,
      runValidators_lift1, runValidators_lift2]

/-- With no nullish candidates entry the whole reduction runs without
throwing and collects the characterized errors. -/
lemma verifyConfigErrorsE_eq (c : DynConfig) (hnn : candNoNullishB c = true) :
    verifyConfigErrorsE c = .ok (verifyConfigErrors c) := by
  have key : ∀ (l : List Fld) (agg : List SRError),
      (l.foldlM (fun agg f => do
          let ok ← runValidators (fldValidatorsE f) (getField c f)
          pure (if ok then agg else agg ++ [getConfigErrorE f]))
        agg : Except String (List SRError))
        = .ok (l.foldl
            (fun agg f => if fieldOK c f then agg else agg ++ [getConfigErrorE f])
            agg) := by
    intro l
    induction l with
    | nil => intro agg; rfl
    | cons f fs ih =>
      intro agg
      rw [List.foldlM_cons]
      simp only [fieldOKE_eq c f hnn]
      rw [List.foldl_cons]
      exact ih (if fieldOK c f then agg else agg ++ [getConfigErrorE f])
  simpa [verifyConfigErrorsE, verifyConfigErrors] using key fldOrder []

/-! ## C7 — hooks validate first, before any git or API call -/

/-- C7 (amended): for every configuration whose resolved candidates array
holds no nullish entry, when validation fails both lifecycle hooks throw
the aggregate of the configuration errors with an empty trace: no
checkout, add, commit, push, fetch, ls or pull-request call happens.  (A
nullish candidates entry instead crashes validation and the hooks surface
that TypeError — still before any git or API call; see the
counterexample.) -/
theorem hooks_validate_first (g : DynConfig) (env : EnvT) (ctx : Ctx)
    (gext : GitExt) (rm : String → String → Bool) (bext : BranchExt)
    (prRes : String → Except String Unit)
    (hnn : candNoNullishB (ensureDefault g env) = true)
    (h : verifyConfigErrors (ensureDefault g env) ≠ []) :
    prepare g env ctx gext
        = (.error (.aggregate (verifyConfigErrors (ensureDefault g env))), [])
      ∧ success g env ctx rm bext prRes
        = (.error (.aggregate (verifyConfigErrors (ensureDefault g env))), []) := by
  have hv : verifyConfig (ensureDefault g env)
      = .error (.aggregate (verifyConfigErrors (ensureDefault g env))) := by
    unfold verifyConfig
    rw [verifyConfigErrorsE_eq _ hnn]
    cases herr : verifyConfigErrors (ensureDefault g env) with
    | nil => exact absurd herr h
    | cons e es => simp [herr]
  constructor <;> simp [prepare, success, verifyConditions, hv]

/-- Witness for C7's amended statement: the all-absent configuration
resolves to an invalid, crash-free one (empty base URL, null platform,
empty repository URL and token), and the hooks throw its aggregated errors
untouched. -/
theorem hooks_validate_first_w :
    candNoNullishB (ensureDefault dynUndef envNone) = true
      ∧ verifyConfigErrors (ensureDefault dynUndef envNone) ≠ []
      ∧ prepare dynUndef envNone ctx0 extOK
          = (.error (.aggregate (verifyConfigErrors (ensureDefault dynUndef envNone))), []) :=
  ⟨by decide, by decide,
    (hooks_validate_first dynUndef envNone ctx0 extOK rmLit
      ⟨.ok (), .ok []⟩ (fun _ => .ok ()) (by decide) (by decide)).1⟩

/-- A partial configuration whose candidates array holds one null entry. -/
def gNullCand : DynConfig := { dynUndef with candidates := .vArr [.vNull] }

/-- Counterexample to C7 as frozen: with a null candidates entry the
validation itself crashes on the member access `target.from`, so both
hooks surface a raw TypeError — not the aggregate of configuration errors
the claim promises — though still with an empty trace. -/
theorem hooks_validate_first_cex :
    prepare gNullCand envNone ctx0 extOK = (.error (.raw "TypeError"), [])
      ∧ success gNullCand envNone ctx0 rmLit ⟨.ok (), .ok []⟩ (fun _ => .ok ())
          = (.error (.raw "TypeError"), [])
      ∧ (prepare gNullCand envNone ctx0 extOK).1
          ≠ .error (.aggregate (verifyConfigErrors (ensureDefault gNullCand envNone))) := by
  refine ⟨rfl, rfl, fun hx => ?_⟩
  rw [show (prepare gNullCand envNone ctx0 extOK).1
      = Except.error (RunError.raw "TypeError") from rfl] at hx
  simp at hx

/-! ## C5 — per-field validation errors -/

/-- The `reduce` of `verifyConfig` collects exactly the error of each field
that fails its validator chain, in object key order. -/
lemma verifyConfigErrors_eq_filterMap (c : DynConfig) :
    verifyConfigErrors c
      = (fldOrder.filter (fun f => !fieldOK c f)).map getConfigErrorE := by
  have key : ∀ (l : List Fld) (agg : List SRError),
      l.foldl (fun agg f => if fieldOK c f then agg else agg ++ [getConfigErrorE f]) agg
        = agg ++ (l.filter (fun f => !fieldOK c f)).map getConfigErrorE := by
    intro l
    induction l with
    | nil => simp
    | cons f fs ih =>
      intro agg
      by_cases hf : fieldOK c f <;> simp [hf, ih]
  simpa [verifyConfigErrors] using key fldOrder []

/-- Every configuration field appears in the object key order. -/
lemma fld_mem_order (f : Fld) : f ∈ fldOrder := by
  cases f <;> simp [fldOrder]

/-- C5 (amended): on every configuration whose candidates array holds no
null/undefined entry, `verifyConfig` returns without throwing exactly when
every field passes its validator chain (string `apiPathPrefix`; array of
non-empty strings for `assets`; non-empty strings for `baseUrl`, `commit`,
`title`, `token` and `repositoryUrl`; candidates all carrying non-empty
string `from`/`to`; platform among the five recognized names; boolean
`debug`/`dryRun`); when at least one field is malformed it throws the
aggregate of the collected errors, which contains, for each malformed
field, that field's descriptive error — code `EINVALID<FIELD>` with its
documented message.  (A null/undefined candidates entry instead crashes
`verifyConfig` with the TypeError of `target.from`; see the
counterexample.) -/
theorem verifyConfig_perField (c : DynConfig)
    (hnn : candNoNullishB c = true) :
    (verifyConfigErrors c = [] ↔ ∀ f, fieldOK c f = true)
      ∧ (∀ f, fieldOK c f = false → getConfigErrorE f ∈ verifyConfigErrors c)
      ∧ (verifyConfigErrors c = [] → verifyConfig c = .ok ())
      ∧ (verifyConfigErrors c ≠ [] → verifyConfig c
          = .error (.aggregate (verifyConfigErrors c))) := by
  refine ⟨?_, ?_, ?_, ?_⟩
  · rw [verifyConfigErrors_eq_filterMap]
    constructor
    · intro hnil f
      have hmem := fld_mem_order f
      by_contra hbad
      have : f ∈ fldOrder.filter (fun f => !fieldOK c f) := by
        simp only [List.mem_filter]
        exact ⟨hmem, by simp [Bool.eq_false_iff.mpr hbad]⟩
      rw [List.map_eq_nil_iff] at hnil
      rw [hnil] at this
      exact absurd this (List.not_mem_nil f)
    · intro hall
      have : fldOrder.filter (fun f => !fieldOK c f) = [] := by
        rw [List.filter_eq_nil_iff]
        intro f _
        simp [hall f]
      simp [this]
  · intro f hbad
    rw [verifyConfigErrors_eq_filterMap]
    exact List.mem_map_of_mem getConfigErrorE
      (List.mem_filter.mpr ⟨fld_mem_order f, by simp [hbad]⟩)
  · intro hnil
    simp [verifyConfig, verifyConfigErrorsE_eq c hnn, hnil]
  · intro hne
    unfold verifyConfig
    rw [verifyConfigErrorsE_eq c hnn]
    cases herr : verifyConfigErrors c with
    | nil => exact absurd herr hne
    | cons e es => simp [herr]

/-- A configuration valid in every field except its empty token. -/
def cfgBadToken : DynConfig :=
  ⟨.vStr "", .vArr [], .vStr "https://api.github.com", .vArr [], .vStr "c",
    .vBool false, .vBool false, .vStr "github", .vStr "r", .vStr "t", .vStr ""⟩

/-- Witness for C5's amended statement: the empty token is collected as
the `EINVALIDTOKEN` error. -/
theorem verifyConfig_perField_w :
    candNoNullishB cfgBadToken = true
      ∧ fieldOK cfgBadToken Fld.token = false
      ∧ getConfigErrorE Fld.token ∈ verifyConfigErrors cfgBadToken :=
  ⟨rfl, rfl, (verifyConfig_perField cfgBadToken rfl).2.1 Fld.token rfl⟩

/-- A configuration valid in every field except a null candidates entry,
which the claim counts as a candidate whose `from` is absent. -/
def cfgNullCand : DynConfig :=
  ⟨.vStr "", .vArr [], .vStr "https://api.github.com", .vArr [.vNull],
    .vStr "c", .vBool false, .vBool false, .vStr "github", .vStr "r",
    .vStr "t", .vStr "k"⟩

/-- Counterexample to C5 as frozen: at `candidates = [null]` — an entry
whose `from` is absent — the claim promises the aggregate holding the
`EINVALIDCANDIDATES` error, but `validCandidatesArray` evaluates
`target.from` on the null entry and `verifyConfig` crashes with that
TypeError instead. -/
theorem verifyConfig_perField_cex :
    verifyConfig cfgNullCand = .error (.raw "TypeError")
      ∧ verifyConfig cfgNullCand
          ≠ .error (.aggregate [getConfigErrorE Fld.candidates]) := by
  refine ⟨rfl, fun hx => ?_⟩
  rw [show verifyConfig cfgNullCand = Except.error (RunError.raw "TypeError")
      from rfl] at hx
  simp at hx

/-! ## C8 — token resolution from the environment alone -/

/-- Modelled on the spec's words: the token is the first set variable among
`BB_TOKEN`, `BITBUCKET_TOKEN`, `GITEA_TOKEN`, `GH_TOKEN`, `GITHUB_TOKEN`,
`GL_TOKEN`, `GITLAB_TOKEN`, or the empty string when none is set. -/
def specToken (env : EnvT) : String :=
  match env "BB_TOKEN" with
  | some s => s
  | none =>
  match env "BITBUCKET_TOKEN" with
  | some s => s
  | none =>
  match env "GITEA_TOKEN" with
  | some s => s
  | none =>
  match env "GH_TOKEN" with
  | some s => s
  | none =>
  match env "GITHUB_TOKEN" with
  | some s => s
  | none =>
  match env "GL_TOKEN" with
  | some s => s
  | none =>
  match env "GITLAB_TOKEN" with
  | some s => s
  | none => ""

/-- The `??` chain of `ensureDefault` is exactly the first-set-variable
resolution. -/
lemma tokenOf_eq_specToken (env : EnvT) : tokenOf env = specToken env := by
  unfold tokenOf specToken
  cases env "BB_TOKEN" <;> cases env "BITBUCKET_TOKEN" <;> cases env "GITEA_TOKEN"
    <;> cases env "GH_TOKEN" <;> cases env "GITHUB_TOKEN" <;> cases env "GL_TOKEN"
    <;> cases env "GITLAB_TOKEN" <;> rfl

/-- C8: `ensureDefault` sets the token to the first set variable among the
seven platform token variables (empty string when none is set), for every
configuration — the explicitly configured token and the inferred platform
play no part: two arbitrary configurations resolve to the same token under
the same environment. -/
theorem ensureDefault_token (cfg cfg' : DynConfig) (env : EnvT) :
    (ensureDefault cfg env).token = .vStr (specToken env)
      ∧ (ensureDefault cfg env).token = (ensureDefault cfg' env).token := by
  constructor
  · simp [ensureDefault, tokenOf_eq_specToken]
  · simp [ensureDefault]

/-! ## C6 — a git failure aborts `processRequest` with `EPUSHASSETS` -/

/-- C6: whenever creating the asset branch, staging or committing the
assets, or pushing the branch fails, `processRequest` aborts with the
`EPUSHASSETS` `SemanticReleaseError` and no pull-request creation is
attempted. -/
theorem processRequest_gitFailure_aborts (ctx : Ctx) (cfg : RequestsConfig)
    (ext : GitExt) (h1 : cfg.assets ≠ [])
    (h2 : exOkB ext.checkoutNew = false ∨ exOkB ext.addRes = false
      ∨ exOkB ext.commitRes = false ∨ exOkB ext.pushRes = false) :
    (processRequest ctx cfg ext).1
        = .error (.single (pushAssetsError (changesBranchOf ctx)))
      ∧ countPR (processRequest ctx cfg ext).2 = 0 := by
  unfold processRequest
  rw [if_neg h1]
  cases hc : ext.checkoutNew with
  | error e => simp [countPR]
  | ok _ =>
    cases ha : ext.addRes with
    | error e => simp [countPR]
    | ok _ =>
      cases hm : ext.commitRes with
      | error e => simp [countPR]
      | ok _ =>
        cases hp : ext.pushRes with
        | error e => cases cfg.dryRun <;> simp [countPR]
        | ok _ => simp [hc, ha, hm, hp, exOkB] at h2

/-- An external world whose `git push` fails. -/
def extPushFail : GitExt := ⟨"authremote", .ok (), .ok (), .ok (), .error "fail", .ok (), .ok ()⟩

/-- Witness for C6: with a failing push the run yields the `EPUSHASSETS`
error and an empty pull-request count. -/
theorem processRequest_gitFailure_aborts_w :
    (processRequest ctx0 cfgPlain extPushFail).1
        = .error (.single (pushAssetsError (changesBranchOf ctx0)))
      ∧ countPR (processRequest ctx0 cfgPlain extPushFail).2 = 0 :=
  processRequest_gitFailure_aborts ctx0 cfgPlain extPushFail (by decide)
    (Or.inr (Or.inr (Or.inr rfl)))

/-! ## C1 — dry-run behaviour of pushes and fan-out requests -/

/-- Every push the asset-branch run performs carries exactly the argv built
by the git module's `push` for the configured dry-run flag. -/
lemma processRequest_trace_pushes (ctx : Ctx) (cfg : RequestsConfig) (ext : GitExt) :
    ∀ args, Event.pushEv args ∈ (processRequest ctx cfg ext).2 →
      args = pushArgs ext.authRemote (changesBranchOf ctx) cfg.dryRun := by
  intro args hmem
  by_cases h0 : cfg.assets = []
  · simp [processRequest, h0] at hmem
  · unfold processRequest at hmem
    rw [if_neg h0] at hmem
    cases hc : ext.checkoutNew with
    | error e => simp [hc] at hmem
    | ok _ =>
      cases ha : ext.addRes with
      | error e => simp [hc, ha] at hmem
      | ok _ =>
        cases hm : ext.commitRes with
        | error e => simp [hc, ha, hm] at hmem
        | ok _ =>
          cases hp : ext.pushRes with
          | error e =>
            cases hd : cfg.dryRun <;> simp [hc, ha, hm, hp, hd] at hmem ⊢ <;>
              exact hmem
          | ok _ =>
            cases hb : ext.checkoutBack with
            | error e =>
              cases hd : cfg.dryRun <;> simp [hc, ha, hm, hp, hb, hd] at hmem ⊢ <;>
                exact hmem
            | ok _ =>
              cases hq : ext.createPRRes with
              | error e =>
                cases hd : cfg.dryRun <;>
                  simp [hc, ha, hm, hp, hb, hq, hd] at hmem ⊢ <;> exact hmem
              | ok _ =>
                cases hd : cfg.dryRun <;>
                  simp [hc, ha, hm, hp, hb, hq, hd] at hmem ⊢ <;> exact hmem

/-- In dry-run mode the fan-out loop only logs: its trace is one log line
per branch. -/
lemma countPR_loop_dry (rb : String) (prRes : String → Except String Unit)
    (bs : List String) : countPR (createRequestsLoop rb true prRes bs).2 = 0 := by
  induction bs with
  | nil => rfl
  | cons b bs ih => simpa [createRequestsLoop, countPR] using ih

/-- C1 (amended): with the dry-run flag on, every `git push` that
`processRequest` performs carries `--dry-run`, and `createRequests` calls
the pull-request creation API for no target branch.  (`processRequest`'s
own single pull-request creation is *not* suppressed; see the
counterexample.) -/
theorem dryRun_remote_behaviour (ctx : Ctx) (cfg : RequestsConfig)
    (gext : GitExt) (branches : List String)
    (prRes : String → Except String Unit) (h : cfg.dryRun = true) :
    (∀ args, Event.pushEv args ∈ (processRequest ctx cfg gext).2 →
        "--dry-run" ∈ args)
      ∧ countPR (createRequests ctx cfg branches prRes).2 = 0 := by
  constructor
  · intro args hmem
    have harg := processRequest_trace_pushes ctx cfg gext args hmem
    rw [harg, h]
    simp [pushArgs]
  · have h2 := countPR_loop_dry ctx.branchName prRes branches
    unfold createRequests
    rw [h]
    by_cases hr : (createRequestsLoop ctx.branchName true prRes branches).1 = [] <;>
      simp [hr, h2]

/-- Witness for C1's amended statement at a concrete dry-run input. -/
theorem dryRun_remote_behaviour_w :
    (∀ args, Event.pushEv args ∈ (processRequest ctx0 cfgDry extOK).2 →
        "--dry-run" ∈ args)
      ∧ countPR (createRequests ctx0 cfgDry ["staging"] (fun _ => .ok ())).2 = 0 :=
  dryRun_remote_behaviour ctx0 cfgDry extOK ["staging"] (fun _ => .ok ()) rfl

/-- Counterexample to C1 as frozen: with `dryRun = true` and every
external call succeeding, `processRequest` still performs one pull-request
creation call — a remote mutation attempt — so dry-run mode does not keep
every lifecycle operation away from the remote. -/
theorem dryRun_remote_behaviour_cex :
    cfgDry.dryRun = true ∧ countPR (processRequest ctx0 cfgDry extOK).2 = 1 :=
  ⟨rfl, rfl⟩

/-! ## C2 — pull-request failures: swallowed in `processRequest`,
aggregated and thrown in `createRequests` -/

/-- Outside dry-run mode the fan-out loop collects one `EPULLREQUEST` error
per branch whose pull-request creation failed, in branch order. -/
lemma createRequestsLoop_errors (rb : String)
    (prRes : String → Except String Unit) (bs : List String) :
    (createRequestsLoop rb false prRes bs).1
      = (bs.filter (fun b => !exOkB (prRes b))).map (fun b => prCreateError rb b) := by
  induction bs with
  | nil => rfl
  | cons b bs ih =>
    cases hb : prRes b with
    | ok _ => simp [createRequestsLoop, hb, exOkB, ih]
    | error e => simp [createRequestsLoop, hb, exOkB, ih]

/-- C2 (amended): when the single pull request of `processRequest` cannot
be created the failure is logged and swallowed — the run still returns
normally; but when fan-out pull requests of `createRequests` fail, each
failure becomes an `EPULLREQUEST` `SemanticReleaseError` and the aggregate
of them is thrown to the caller once every branch has been attempted. -/
theorem prFailure_swallowed_vs_aggregated (ctx : Ctx) (cfg : RequestsConfig)
    (gext : GitExt) (branches : List String)
    (prRes : String → Except String Unit)
    (h1 : cfg.assets ≠ [])
    (h2 : gext.checkoutNew = .ok () ∧ gext.addRes = .ok ()
      ∧ gext.commitRes = .ok () ∧ gext.pushRes = .ok () ∧ gext.checkoutBack = .ok ())
    (h3 : exOkB gext.createPRRes = false)
    (h4 : cfg.dryRun = false) :
    ((processRequest ctx cfg gext).1 = .ok ()
        ∧ Event.logErrEv ∈ (processRequest ctx cfg gext).2)
      ∧ (createRequests ctx cfg branches prRes).1
        = (if branches.filter (fun b => !exOkB (prRes b)) = [] then Except.ok ()
           else .error (.aggregate ((branches.filter (fun b => !exOkB (prRes b))).map
              (fun b => prCreateError ctx.branchName b)))) := by
  obtain ⟨hco, had, hcm, hpu, hcb⟩ := h2
  constructor
  · cases hpr : gext.createPRRes with
    | ok _ => rw [hpr] at h3; simp [exOkB] at h3
    | error e =>
      unfold processRequest
      rw [if_neg h1]
      simp [hco, had, hcm, hpu, hcb, hpr]
  · by_cases hf : branches.filter (fun b => !exOkB (prRes b)) = [] <;>
      simp [createRequests, h4, createRequestsLoop_errors, hf]

/-- An external world whose pull-request creation fails. -/
def extPRFail : GitExt := ⟨"authremote", .ok (), .ok (), .ok (), .ok (), .ok (), .error "prfail"⟩

/-- Witness for C2's amended statement: the swallowed single request. -/
theorem prFailure_swallowed_vs_aggregated_w :
    (processRequest ctx0 cfgPlain extPRFail).1 = .ok ()
      ∧ Event.logErrEv ∈ (processRequest ctx0 cfgPlain extPRFail).2 :=
  (prFailure_swallowed_vs_aggregated ctx0 cfgPlain extPRFail ["staging"]
    (fun _ => .error "boom") (by decide) ⟨rfl, rfl, rfl, rfl, rfl⟩ rfl rfl).1

/-- Counterexample to C2 as frozen: a failed fan-out pull request makes
`createRequests` throw an `AggregateError` instead of returning normally. -/
theorem prFailure_swallowed_vs_aggregated_cex :
    (createRequests ctx0 cfgPlain ["staging"] (fun _ => Except.error "boom")).1
        = .error (.aggregate [prCreateError "main" "staging"])
      ∧ (createRequests ctx0 cfgPlain ["staging"] (fun _ => Except.error "boom")).1
        ≠ .ok () := by
  refine ⟨rfl, fun hx => ?_⟩
  rw [show (createRequests ctx0 cfgPlain ["staging"] (fun _ => Except.error "boom")).1
      = Except.error (RunError.aggregate [prCreateError "main" "staging"]) from rfl] at hx
  exact Except.noConfusion hx

/-! ## C4 — which branches `getBranches` keeps -/

/-- Folding lemma: `any` over a filtered list folds the filter into the predicate. -/
lemma any_filter_fold {α : Type} (l : List α) (p q : α → Bool) :
    (l.filter p).any q = l.any (fun a => p a && q a) := by
  induction l with
  | nil => rfl
  | cons a t ih => by_cases hp : p a <;> simp [hp, ih]

/-- The truthiness of `find` over the `to` patterns agrees with plain
existence of a matching pattern as soon as no pattern is the empty
string. -/
lemma matchFound_eq_any (rm : String → String → Bool) (b : String)
    (apps : List ReleaseCandidate) (h : ∀ c ∈ apps, c.toPat ≠ "") :
    (match (apps.map (fun c => c.toPat)).find? (fun t => rm b t) with
      | some t => t != ""
      | none => false) = apps.any (fun c => rm b c.toPat) := by
  cases hf : (apps.map (fun c => c.toPat)).find? (fun t => rm b t) with
  | none =>
    have hnone := List.find?_eq_none.mp hf
    symm
    rw [List.any_eq_false]
    intro c hc
    exact hnone c.toPat (List.mem_map_of_mem _ hc)
  | some t =>
    have hp : rm b t = true := List.find?_some hf
    have hmem : t ∈ apps.map (fun c => c.toPat) := List.mem_of_find?_eq_some hf
    obtain ⟨c, hc, rfl⟩ := List.mem_map.mp hmem
    have hne : (c.toPat != "") = true := bne_iff_ne.mpr (h c hc)
    dsimp only
    rw [hne]
    symm
    rw [List.any_eq_true]
    exact ⟨c, hc, hp⟩

/-- C4 (amended): as long as every candidate's `to` pattern is non-empty
(as the configuration validator demands), `getBranches` returns exactly the
remote branches different from the release branch that match the `to`
pattern of at least one candidate whose `from` pattern matches the release
branch — in particular the empty list when no candidate's `from` matches.
(A candidate with an empty `to` pattern breaks this: see the
counterexample.) -/
theorem getBranches_matches (rm : String → String → Bool) (ctx : Ctx)
    (cfg : RequestsConfig) (remote : List String)
    (h : ∀ c ∈ cfg.candidates, c.toPat ≠ "") :
    (getBranches rm ctx cfg ⟨.ok (), .ok remote⟩).1 =
      .ok (remote.filter (fun b => (ctx.branchName != b)
        && cfg.candidates.any (fun c =>
            rm ctx.branchName c.fromPat && rm b c.toPat))) := by
  by_cases happ : cfg.candidates.filter (fun c => rm ctx.branchName c.fromPat) = []
  · have hnone := List.filter_eq_nil_iff.mp happ
    have hzero : remote.filter (fun b => (ctx.branchName != b)
        && cfg.candidates.any (fun c =>
            rm ctx.branchName c.fromPat && rm b c.toPat)) = [] := by
      rw [List.filter_eq_nil_iff]
      intro b _hb
      simp only [Bool.and_eq_true, List.any_eq_true, not_and]
      intro _ hex
      obtain ⟨c, hc, hcc⟩ := hex
      exact hnone c hc hcc.1
    simp [getBranches, happ, hzero]
  · have hq : ∀ b ∈ remote,
        ((match (List.map (fun c => c.toPat)
              (cfg.candidates.filter (fun c => rm ctx.branchName c.fromPat))).find?
                (fun t => rm b t) with
            | some t => t != ""
            | none => false) && (ctx.branchName != b))
        = ((ctx.branchName != b)
          && cfg.candidates.any (fun c =>
              rm ctx.branchName c.fromPat && rm b c.toPat)) := by
      intro b _hb
      have happs : ∀ c ∈ cfg.candidates.filter (fun c => rm ctx.branchName c.fromPat),
          c.toPat ≠ "" := fun c hc => h c (List.mem_of_mem_filter hc)
      rw [matchFound_eq_any rm b _ happs, any_filter_fold]
      exact Bool.and_comm _ _
    simp only [getBranches, happ, if_neg, reduceIte]
    rw [List.filter_filter]
    exact congrArg Except.ok (List.filter_congr hq)

/-- A configuration with the single candidate pair `main -> dev`. -/
def cfgMainDev : RequestsConfig :=
  ⟨false, false, "git@github.com:o/r.git", "", "https://api.github.com", "github",
    "tok", [⟨"main", "dev"⟩], defaultTitle, defaultCommit, []⟩

/-- Witness for C4's amended statement at concrete patterns and remote
branches. -/
theorem getBranches_matches_w :
    (∀ c ∈ cfgMainDev.candidates, c.toPat ≠ "")
      ∧ (getBranches rmLit ctx0 cfgMainDev ⟨.ok (), .ok ["dev", "main", "x"]⟩).1
        = .ok ["dev"] :=
  ⟨by decide,
    (getBranches_matches rmLit ctx0 cfgMainDev ["dev", "main", "x"]
        (by decide)).trans rfl⟩

/-- A matcher agreeing with JS regex matching on the literals used below:
`"main".match("main")` is truthy and `"dev".match("")` is truthy (the empty
pattern matches every string). -/
def rmLitOrEmpty (s pat : String) : Bool := pat == "" || pat == s

/-- A configuration whose only candidate maps `main` to the empty `to`
pattern. -/
def cfgEmptyTo : RequestsConfig :=
  ⟨false, false, "git@github.com:o/r.git", "", "https://api.github.com", "github",
    "tok", [⟨"main", ""⟩], defaultTitle, defaultCommit, []⟩

/-- Counterexample to C4 as frozen: remote branch `dev` differs from the
release branch `main` and matches the `to` pattern `""` of a candidate
whose `from` pattern matches `main`, yet `getBranches` returns the empty
list — the truthiness test on the found pattern drops branches whose first
matching `to` pattern is the empty string. -/
theorem getBranches_matches_cex :
    (getBranches rmLitOrEmpty ctx0 cfgEmptyTo ⟨.ok (), .ok ["dev"]⟩).1 = .ok []
      ∧ rmLitOrEmpty "main" "main" = true
      ∧ rmLitOrEmpty "dev" "" = true
      ∧ "dev" ≠ "main" :=
  ⟨rfl, rfl, rfl, by decide⟩

/-! ## C3 — platform/baseUrl/apiPathPrefix resolution -/

/-- Inject a typed optional string into a runtime value (`Partial`'s absent
field is `undefined`). -/
def jOfOpt : Option String → JValue
| some s => .vStr s
| none => .vUndefined

/-- The claim's resolution, written from the spec's words: an explicit
baseUrl yields no inferred platform and prefix `""`; otherwise the first
set variable among `BITBUCKET_URL`, `BITBUCKET_CLOUD_URL`, `GITEA_URL`,
(`GH_URL`/`GITHUB_URL`/`GITHUB_API_URL`), (`GL_URL`/`GITLAB_URL`/
`CI_SERVER_URL`) selects the platform and its default API path prefix, an
explicitly configured prefix overriding the default; with no source at all
the resolution is empty (the code then ignores even an explicit prefix). -/
def specResolve (bOpt pOpt : Option String) (env : EnvT) : String × String × String :=
  match bOpt with
  | some b => ("", b, pOpt.getD "")
  | none =>
    match env "BITBUCKET_URL" with
    | some u => ("bitbucket", u, pOpt.getD "/rest/api/1.0")
    | none =>
      match env "BITBUCKET_CLOUD_URL" with
      | some u => ("bitbucket-cloud", u, pOpt.getD "/2.0")
      | none =>
        match env "GITEA_URL" with
        | some u => ("gitea", u, pOpt.getD "/api/v1")
        | none =>
          match githubUrlOf env with
          | some u => ("github", u, pOpt.getD "")
          | none =>
            match gitlabUrlOf env with
            | some u => ("gitlab", u, pOpt.getD "/api/v4")
            | none => ("", "", "")

/-- Nullish coalescing of a typed optional prefix against a default. -/
lemma jCoalesce_jOfOpt (pOpt : Option String) (d : String) :
    jCoalesce (jOfOpt pOpt) (.vStr d) = .vStr (pOpt.getD d) := by
  cases pOpt <;> rfl

/-- A three-variable `??` chain only yields values of the environment, so
non-emptiness of the environment's values carries over. -/
lemma firstDef_ne (env : EnvT) (henv : ∀ k s, env k = some s → s ≠ "")
    (k1 k2 k3 : String) :
    ∀ s, ((env k1).orElse (fun _ => (env k2).orElse (fun _ => env k3))) = some s →
      s ≠ "" := by
  intro s hs
  cases h1 : env k1 with
  | some v =>
    rw [h1] at hs
    simp [Option.orElse] at hs
    subst hs
    exact henv _ _ h1
  | none =>
    rw [h1] at hs
    simp [Option.orElse] at hs
    cases h2 : env k2 with
    | some v =>
      rw [h2] at hs
      simp [Option.orElse] at hs
      subst hs
      exact henv _ _ h2
    | none =>
      rw [h2] at hs
      simp [Option.orElse] at hs
      exact henv _ _ hs

/-- C3 (amended): for every partial configuration whose `baseUrl` and
`apiPathPrefix` fields carry their TypeScript types, and every environment
in which every set variable is non-empty (and any explicit `baseUrl` is
non-empty), the `getURLs` resolution of `ensureDefault` agrees with the
spec's priority resolution, and `ensureDefault` copies it into the
resolved configuration — the platform only when none is configured
explicitly.  (A variable set to the empty string breaks the priority: see
the counterexample.) -/
theorem ensureDefault_resolution (cfg : DynConfig) (env : EnvT)
    (bOpt pOpt : Option String)
    (hb : cfg.baseUrl = jOfOpt bOpt)
    (hp : cfg.apiPathPrefix = jOfOpt pOpt)
    (hbne : ∀ s, bOpt = some s → s ≠ "")
    (henv : ∀ k s, env k = some s → s ≠ "") :
    getURLs cfg env
        = ((specResolve bOpt pOpt env).1,
            .vStr (specResolve bOpt pOpt env).2.1,
            .vStr (specResolve bOpt pOpt env).2.2)
      ∧ (ensureDefault cfg env).baseUrl = .vStr (specResolve bOpt pOpt env).2.1
      ∧ (ensureDefault cfg env).apiPathPrefix
          = .vStr (specResolve bOpt pOpt env).2.2
      ∧ (cfg.platform = .vUndefined →
          (ensureDefault cfg env).platform = .vStr (specResolve bOpt pOpt env).1) := by
  have hmain : getURLs cfg env
      = ((specResolve bOpt pOpt env).1,
          .vStr (specResolve bOpt pOpt env).2.1,
          .vStr (specResolve bOpt pOpt env).2.2) := by
    cases bOpt with
    | some b =>
      simp only [jOfOpt] at hb
      have htr : jTruthy (JValue.vStr b) = true := bne_iff_ne.mpr (hbne b rfl)
      simp [getURLs, specResolve, hb, htr, hp, jCoalesce_jOfOpt]
    | none =>
      simp only [jOfOpt] at hb
      have hfa : jTruthy cfg.baseUrl = false := by rw [hb]; rfl
      cases h1 : env "BITBUCKET_URL" with
      | some u =>
        have hu : (u != "") = true := bne_iff_ne.mpr (henv _ _ h1)
        simp [getURLs, specResolve, hfa, h1, optTruthy, hu, hp, jCoalesce_jOfOpt]
      | none =>
        cases h2 : env "BITBUCKET_CLOUD_URL" with
        | some u =>
          have hu : (u != "") = true := bne_iff_ne.mpr (henv _ _ h2)
          simp [getURLs, specResolve, hfa, h1, h2, optTruthy, hu, hp, jCoalesce_jOfOpt]
        | none =>
          cases h3 : env "GITEA_URL" with
          | some u =>
            have hu : (u != "") = true := bne_iff_ne.mpr (henv _ _ h3)
            simp [getURLs, specResolve, hfa, h1, h2, h3, optTruthy, hu, hp,
              jCoalesce_jOfOpt]
          | none =>
            cases h4 : githubUrlOf env with
            | some u =>
              have hu : (u != "") = true := bne_iff_ne.mpr
                (firstDef_ne env henv "GH_URL" "GITHUB_URL" "GITHUB_API_URL" u h4)
              simp [getURLs, specResolve, hfa, h1, h2, h3, h4, optTruthy, hu, hp,
                jCoalesce_jOfOpt]
            | none =>
              cases h5 : gitlabUrlOf env with
              | some u =>
                have hu : (u != "") = true := bne_iff_ne.mpr
                  (firstDef_ne env henv "GL_URL" "GITLAB_URL" "CI_SERVER_URL" u h5)
                simp [getURLs, specResolve, hfa, h1, h2, h3, h4, h5, optTruthy, hu,
                  hp, jCoalesce_jOfOpt]
              | none =>
                simp [getURLs, specResolve, hfa, h1, h2, h3, h4, h5, optTruthy]
  refine ⟨hmain, ?_, ?_, fun hplat => ?_⟩
  · simp [ensureDefault, hmain]
  · simp [ensureDefault, hmain]
  · simp [ensureDefault, hplat, jCoalesce, hmain]

/-- An environment with `GH_URL` set to the empty string and `GITHUB_URL`
set to a non-empty URL. -/
def envGhEmpty : EnvT := fun k =>
  if k == "GH_URL" then some ""
  else if k == "GITHUB_URL" then some "https://api.github.com" else none

/-- Counterexample to C3 as frozen: `GITHUB_URL` is set (non-empty) and no
higher-priority variable is set to a non-empty value, so the claim selects
platform `github`; but `GH_URL` set to `""` short-circuits the `??` chain
and fails the truthiness test, so `ensureDefault` infers no platform at
all. -/
theorem ensureDefault_resolution_cex :
    envGhEmpty "GH_URL" = some ""
      ∧ envGhEmpty "GITHUB_URL" = some "https://api.github.com"
      ∧ envGhEmpty "BITBUCKET_URL" = none
      ∧ envGhEmpty "BITBUCKET_CLOUD_URL" = none
      ∧ envGhEmpty "GITEA_URL" = none
      ∧ (specResolve none none envGhEmpty).1 = "github"
      ∧ (getURLs dynUndef envGhEmpty).1 = ""
      ∧ (ensureDefault dynUndef envGhEmpty).platform = .vStr "" :=
  ⟨rfl, rfl, rfl, rfl, rfl, rfl, rfl, rfl⟩

/-- An environment with only `GITLAB_URL` set. -/
def envGitlab : EnvT := fun k =>
  if k == "GITLAB_URL" then some "https://gitlab.example" else none

/-- Every value `envGitlab` holds is non-empty. -/
lemma envGitlab_ne : ∀ k s, envGitlab k = some s → s ≠ "" := by
  intro k s h
  unfold envGitlab at h
  by_cases hk : (k == "GITLAB_URL") = true
  · rw [if_pos hk] at h
    injection h with h2
    subst h2
    decide
  · rw [if_neg hk] at h
    exact Option.noConfusion h

/-- Witness for C3's amended statement: with only `GITLAB_URL` set the
resolution picks gitlab, its URL and `/api/v4`. -/
theorem ensureDefault_resolution_w :
    getURLs dynUndef envGitlab
      = ("gitlab", .vStr "https://gitlab.example", .vStr "/api/v4") := by
  have h := (ensureDefault_resolution dynUndef envGitlab none none rfl rfl
    (fun s hs => Option.noConfusion hs) envGitlab_ne).1
  rw [h]
  rfl

end SRQ
